import Mathlib

/-!
Verification of the worktree-management core of the `wk` command-line tool
(`internal/worktree/worktree.go` and the relocation loop of `cmd/organize.go`).

Go strings are modelled as `List Char`; Go `string` helpers (`strings.HasPrefix`,
`strings.TrimPrefix`, `strings.TrimSuffix`, `strings.Contains`, `strings.Split`,
`strings.SplitN`, `strings.TrimSpace`) are embedded below.  External `git`
processes are modelled by their observable result (`CmdResult`: exit code,
stdout, stderr) or, for probes, by the set of references they consult; the
functions under verification are pure over those inputs, exactly mirroring the
Go control flow.
-/

namespace Wk

/-- Converts a Lean string literal to the `List Char` model of a Go string. -/
def gs (s : String) : List Char := s.data

/-- Embeds Go `strings.HasPrefix s p` (argument order: pattern first). -/
def hasPref : List Char → List Char → Bool
  | [], _ => true
  | _ :: _, [] => false
  | a :: ps, b :: ss => a == b && hasPref ps ss

/-- Embeds Go `strings.TrimPrefix(s, p)`: drops `p` when it is a prefix of `s`. -/
def dropPref (p s : List Char) : List Char :=
  if hasPref p s then s.drop p.length else s

/-- Embeds Go `strings.HasSuffix(s, sfx)`. -/
def hasSuf (sfx s : List Char) : Bool :=
  hasPref sfx.reverse s.reverse

/-- Embeds Go `strings.TrimSuffix(s, sfx)`. -/
def trimSuf (sfx s : List Char) : List Char :=
  if hasSuf sfx s then s.take (s.length - sfx.length) else s

/-- Embeds Go `strings.Contains(s, sub)`. -/
def strContains (s sub : List Char) : Bool :=
  match s with
  | [] => hasPref sub []
  | _ :: t => hasPref sub s || strContains t sub

/-- Embeds Go `strings.Split(s, sep)` for a one-character separator. -/
def splitOnChar (c : Char) : List Char → List (List Char)
  | [] => [[]]
  | x :: xs =>
    let r := splitOnChar c xs
    if x = c then [] :: r
    else
      match r with
      | [] => [[x]]
      | h :: t => (x :: h) :: t

/-- Embeds Go `strings.SplitN(s, sep, 3)` for a one-character separator: at most
three parts, the third keeping any further separators. -/
def splitN3 (c : Char) (l : List Char) : List (List Char) :=
  match splitOnChar c l with
  | p0 :: p1 :: p2 :: rest => [p0, p1, List.intercalate [c] (p2 :: rest)]
  | ps => ps

/-- Whitespace predicate of Go `strings.TrimSpace` (ASCII part of
`unicode.IsSpace`; the non-ASCII space code points play no role here). -/
def isSpaceGo (c : Char) : Bool :=
  c = ' ' || c = '\t' || c = '\n' || c = '\x0b' || c = '\x0c' || c = '\r'

/-- Embeds Go `strings.TrimSpace`. -/
def trimSpace (l : List Char) : List Char :=
  ((l.dropWhile isSpaceGo).reverse.dropWhile isSpaceGo).reverse

/-- Strips one trailing carriage return, as `bufio.ScanLines` does per line. -/
def dropCR (l : List Char) : List Char :=
  if l.getLast? = some '\r' then l.dropLast else l

/-- The default token-size cap of a `bufio.Scanner`
(`bufio.MaxScanTokenSize = 64 * 1024`). -/
def maxScanTokenSize : Nat := 65536

/-- Embeds a default `bufio.Scanner` with `ScanLines` over an in-memory
`bytes.Reader`, applied to the newline-separated segments of the data: each
segment shorter than `maxScanTokenSize` is emitted as a token with one
trailing carriage return stripped; a final empty segment (data ending in a
newline) emits nothing; the first segment of `maxScanTokenSize` bytes or more
cannot fit in the scanner's buffer (the buffer must also hold the newline),
so the scan stops there with `bufio.ErrTooLong`, dropping that segment and
all later ones.  Returns the emitted tokens and the too-long flag. -/
def scanSegs : List (List Char) → List (List Char) × Bool
  | [] => ([], false)
  | [seg] =>
    if seg = [] then ([], false)
    else if seg.length ≥ maxScanTokenSize then ([], true)
    else ([dropCR seg], false)
  | seg :: seg2 :: rest =>
    if seg.length ≥ maxScanTokenSize then ([], true)
    else
      let r := scanSegs (seg2 :: rest)
      (dropCR seg :: r.1, r.2)

/-- Embeds Go `filepath.Join(a, b)`.  Go additionally applies `filepath.Clean`;
on already-clean components (no `.` or `..` segments, no repeated or trailing
slashes), as in every input considered below, `Clean` is the identity. -/
def joinPath (a b : List Char) : List Char :=
  if a = [] then b else if b = [] then a else a ++ gs "/" ++ b

/-- Embeds Go `filepath.Dir(p)` on clean paths: everything before the final
slash (`"/"` when the final slash is the first character, `"."` when there is
no slash). -/
def dirPath (p : List Char) : List Char :=
  match p.reverse.dropWhile (fun c => ¬ (c = '/')) with
  | [] => gs "."
  | [_] => gs "/"
  | _ :: t => t.reverse

/-- Observable result of one external `git` invocation: exit code, captured
standard output and captured standard error. -/
structure CmdResult where
  exitCode : Nat
  stdout : List Char
  stderr : List Char
deriving DecidableEq

/-- Message of the Go `exec.ExitError` wrapped by `fmt.Errorf("...: %w", err)`
when a command exits with the given non-zero code. -/
def goExitErr (code : Nat) : List Char :=
  gs "exit status " ++ (toString code).data

/-- Embeds the Go struct `worktree.Worktree` (fields `Path`, `Commit`,
`Branch`). -/
structure Worktree where
  path : List Char
  commit : List Char
  branch : List Char
deriving DecidableEq

/-- The `"worktree "` marker of the porcelain format. -/
def wtKey : List Char := gs "worktree "

/-- The `"HEAD "` marker of the porcelain format. -/
def headKey : List Char := gs "HEAD "

/-- The `"branch "` marker of the porcelain format. -/
def branchKey : List Char := gs "branch "

/-- The `"refs/heads/"` namespace stripped from branch values. -/
def refsHeadsKey : List Char := gs "refs/heads/"

/-- One iteration of the `switch` in `parseWorktreeList` (worktree.go 74-88):
a `"worktree "` line flushes the accumulated record (unless its path is empty)
and starts a new one; `"HEAD "`, `"branch "` and `detached` lines update the
accumulated record; any other line is ignored. -/
def step (st : List Worktree × Worktree) (line : List Char) : List Worktree × Worktree :=
  if hasPref wtKey line then
    (if st.2.path = [] then st.1 else st.1 ++ [st.2], ⟨dropPref wtKey line, [], []⟩)
  else if hasPref headKey line then
    (st.1, ⟨st.2.path, dropPref headKey line, st.2.branch⟩)
  else if hasPref branchKey line then
    (st.1, ⟨st.2.path, st.2.commit, dropPref refsHeadsKey (dropPref branchKey line)⟩)
  else if line = gs "detached" then
    (st.1, ⟨st.2.path, st.2.commit, gs "(detached)"⟩)
  else st

/-- The zero value `var current Worktree` together with the empty result slice. -/
def initState : List Worktree × Worktree := ([], ⟨[], [], []⟩)

/-- The epilogue of `parseWorktreeList` (worktree.go 91-93): the final
accumulated record is appended when its path is non-empty. -/
def flushState (st : List Worktree × Worktree) : List Worktree :=
  if st.2.path = [] then st.1 else st.1 ++ [st.2]

/-- The scan loop of `parseWorktreeList` (worktree.go 66-96) over the already
line-split input. -/
def parseWorktreeListLines (lines : List (List Char)) : List Worktree :=
  flushState (lines.foldl step initState)

/-- Embeds `parseWorktreeList` (worktree.go 66-96) on the raw byte stream,
mirroring the Go multi-return `([]Worktree, error)`: the scan loop runs over
the tokens the scanner emits, the final record is flushed even when the scan
stopped early, and the returned error is `scanner.Err()` — `nil` over an
in-memory `bytes.Reader` unless a line reaches the scanner's token-size cap,
in which case it is `bufio.ErrTooLong` and the record list is truncated. -/
def parseWorktreeList (data : List Char) : List Worktree × Option (List Char) :=
  let scan := scanSegs (splitOnChar '\n' data)
  (parseWorktreeListLines scan.1,
   if scan.2 then some (gs "bufio.Scanner: token too long") else none)

/-- Embeds `List` (worktree.go 56-64): run `git worktree list --porcelain`
via `cmd.Output()` (stdout only); a non-zero exit yields the error
`"git worktree list failed: %w"` wrapping the process error; otherwise the
stdout bytes are parsed and the pair returned by `parseWorktreeList` is
surfaced as the callers consume it (a non-nil error is a failure). -/
def listWorktrees (r : CmdResult) : Except (List Char) (List Worktree) :=
  if r.exitCode = 0 then
    match parseWorktreeList r.stdout with
    | (wts, none) => Except.ok wts
    | (_, some e) => Except.error e
  else
    Except.error (gs "git worktree list failed: " ++ goExitErr r.exitCode)

/-- Modelled from the spec: the error message section 4.1 claims for a failed
list — "the trimmed combined output" of the external command.  Stated for
comparison with `listWorktrees` above, which is the code's behaviour. -/
def specListErrorMessage (r : CmdResult) : List Char :=
  trimSpace (r.stdout ++ r.stderr)

/-- A porcelain block as the spec describes it: a `"worktree <path>"` line
followed by body lines (`HEAD`/`branch`/`detached`/unknown). -/
structure Block where
  path : List Char
  body : List (List Char)
deriving DecidableEq

/-- Renders a block back to its porcelain lines. -/
def renderBlock (b : Block) : List (List Char) :=
  (wtKey ++ b.path) :: b.body

/-- Renders a sequence of blocks to a porcelain line stream. -/
def renderBlocks (bs : List Block) : List (List Char) :=
  (bs.map renderBlock).flatten

/-- A block is well formed when its path is non-empty and no body line carries
the `"worktree "` marker. -/
def WellFormedBlock (b : Block) : Prop :=
  b.path ≠ [] ∧ ∀ l ∈ b.body, hasPref wtKey l = false

instance (b : Block) : Decidable (WellFormedBlock b) := by
  unfold WellFormedBlock; infer_instance

/-- Embeds `extractRepoName` (worktree.go 210-229): strip a trailing `.git`;
for URLs containing both a colon and an at-sign (SSH form) return the last
slash-separated segment; otherwise (scheme form) likewise return the last
slash-separated segment.  `strings.Split` never returns an empty slice, but
the Go fall-through for that impossible case is mirrored faithfully. -/
def lastSlashSeg (u : List Char) : List Char :=
  match (splitOnChar '/' u).getLast? with
  | some last => last
  | none => []

/-- Embeds `extractRepoName` (worktree.go 210-229). -/
def extractRepoName (url : List Char) : List Char :=
  let u := trimSuf (gs ".git") url
  if strContains u (gs ":") && strContains u (gs "@") then
    match (splitOnChar '/' u).getLast? with
    | some last => last
    | none => lastSlashSeg u
  else lastSlashSeg u

/-- Embeds `GetWorktreesDir` (worktree.go 232-246), with the repository name
and the primary (first-listed) worktree path — obtained in Go from
`GetRepoName()` and `GetMainWorktreePath()` — passed as inputs:
`filepath.Join(filepath.Dir(mainPath), repoName + ".worktrees")`. -/
def GetWorktreesDir (mainPath repoName : List Char) : List Char :=
  joinPath (dirPath mainPath) (repoName ++ gs ".worktrees")

/-- Embeds `IsInStandardLocation` (worktree.go 249-262): the primary worktree
path is always conforming; any other path is conforming exactly when it starts
with the worktrees directory. -/
def IsInStandardLocation (mainPath repoName wtPath : List Char) : Bool :=
  if wtPath = mainPath then true
  else hasPref (GetWorktreesDir mainPath repoName) wtPath

/-- The reference namespaces a `git show-ref --verify` probe consults:
the branch names present under `refs/heads/` and under
`refs/remotes/origin/`. -/
structure GitState where
  localRefs : List (List Char)
  remoteRefs : List (List Char)

/-- Embeds `BranchExists` (worktree.go 150-160): probe `refs/heads/<b>` first
and return early on success, then probe `refs/remotes/origin/<b>`. -/
def BranchExists (g : GitState) (b : List Char) : Bool :=
  if g.localRefs.contains b then true
  else g.remoteRefs.contains b

/-- Embeds the command construction of `Add` (worktree.go 25-53), returning the
argument vector passed to the external binary: with the branch existing,
`worktree add <worktreesDir>/<branch> <branch>`; otherwise
`worktree add -b <branch> <worktreesDir>/<branch> HEAD`.  (The `MkdirAll` on
the worktrees directory is a filesystem side effect with no bearing on the
argument vector.) -/
def Add (g : GitState) (worktreesDir branch : List Char) : List (List Char) :=
  let worktreePath := joinPath worktreesDir branch
  if BranchExists g branch then
    [gs "worktree", gs "add", worktreePath, branch]
  else
    [gs "worktree", gs "add", gs "-b", branch, worktreePath, gs "HEAD"]

/-- Embeds `Move` (worktree.go 265-285) given the observable result of the
`git worktree move` invocation: failure carries the trimmed combined output,
success returns the new path `<worktreesDir>/<branch>`. -/
def Move (worktreesDir : List Char) (wt : Worktree) (r : CmdResult) :
    Except (List Char) (List Char) :=
  if r.exitCode = 0 then
    Except.ok (joinPath worktreesDir wt.branch)
  else
    Except.error (gs "git worktree move failed: " ++ trimSpace (r.stdout ++ r.stderr))

/-- Embeds the relocation loop of `runOrganize` (organize.go 75-88): each
non-conforming record is attempted in turn; a failed move prints a per-item
failure and `continue`s, so later records are still attempted.  The result
pairs every record with the outcome of its own move. -/
def runOrganizeMoves (worktreesDir : List Char) (runs : Worktree → CmdResult) :
    List Worktree → List (Worktree × Except (List Char) (List Char))
  | [] => []
  | wt :: rest => (wt, Move worktreesDir wt (runs wt)) :: runOrganizeMoves worktreesDir runs rest

/-- Embeds `FindByBranch` (worktree.go 173-185) over an already-listed
registry: return the first record whose branch matches, else the
not-found error. -/
def notFoundMsg (b : List Char) : List Char :=
  gs "worktree for branch \x27" ++ b ++ gs "\x27 not found"

/-- Embeds the lookup loop of `FindByBranch` (worktree.go 179-184). -/
def FindByBranch : List Worktree → List Char → Except (List Char) Worktree
  | [], b => Except.error (notFoundMsg b)
  | wt :: rest, b => if wt.branch = b then Except.ok wt else FindByBranch rest b

/-- Embeds the Go struct `worktree.Branch` (fields `Name`, `IsRemote`,
`IsLocal`, `CommitShort`, `CommitDate`). -/
structure Branch where
  name : List Char
  isRemote : Bool
  isLocal : Bool
  commitShort : List Char
  commitDate : List Char
deriving DecidableEq

/-- The `"origin/"` marker distinguishing remote-tracking names in the
`for-each-ref` output. -/
def originKey : List Char := gs "origin/"

/-- Association-list model of the Go map `remoteBranches`.  `git for-each-ref`
emits each reference once, so keys are distinct; insertion overwrites an
existing key in place, mirroring map assignment.  Go map iteration order is
unspecified; the theorems below do not rely on the order in which the leftover
remote-only entries are appended beyond what a single leftover forces. -/
def mapSet : List (List Char × Branch) → List Char → Branch → List (List Char × Branch)
  | [], k, v => [(k, v)]
  | (k', v') :: t, k, v => if k' = k then (k, v) :: t else (k', v') :: mapSet t k v

/-- Key-membership test on the association-list map. -/
def mapHasKey (m : List (List Char × Branch)) (k : List Char) : Bool :=
  m.any (fun p => p.1 == k)

/-- Embeds `delete(remoteBranches, name)`. -/
def mapDelete (m : List (List Char × Branch)) (k : List Char) : List (List Char × Branch) :=
  m.filter (fun p => ¬ (p.1 == k))

/-- Scan state of `ListBranches` (worktree.go 308-310): the (unused) local-name
set, the remote map and the ordered local records. -/
structure BrState where
  localNames : List (List Char)
  remoteMap : List (List Char × Branch)
  branches : List Branch
deriving DecidableEq

/-- One iteration of the scan loop of `ListBranches` (worktree.go 313-348):
split the line `name|shortHash|relativeDate` (skip it unless exactly three
parts result); an `origin/`-prefixed name other than `origin/HEAD` is stored
in the remote map with `isRemote` set; any other name is appended as a local
record with `isLocal` set. -/
def scanBranchLine (st : BrState) (line : List Char) : BrState :=
  match splitN3 '|' line with
  | [name, commitShort, commitDate] =>
    if hasPref originKey name then
      let remoteName := dropPref originKey name
      if remoteName = gs "HEAD" then st
      else
        ⟨st.localNames,
         mapSet st.remoteMap remoteName ⟨remoteName, true, false, commitShort, commitDate⟩,
         st.branches⟩
    else
      ⟨st.localNames ++ [name], st.remoteMap,
       st.branches ++ [⟨name, false, true, commitShort, commitDate⟩]⟩
  | _ => st

/-- The merge pass of `ListBranches` (worktree.go 351-356): every local record
whose name is in the remote map becomes synced (`isRemote := true`) and the
map entry is deleted. -/
def mergePass : List Branch → List (List Char × Branch) → List Branch × List (List Char × Branch)
  | [], m => ([], m)
  | b :: rest, m =>
    if mapHasKey m b.name then
      let r := mergePass rest (mapDelete m b.name)
      (⟨b.name, true, b.isLocal, b.commitShort, b.commitDate⟩ :: r.1, r.2)
    else
      let r := mergePass rest m
      (b :: r.1, r.2)

/-- Embeds `ListBranches` (worktree.go 297-364) over the `for-each-ref` output
lines: scan, merge, then append the leftover remote-only records
(worktree.go 359-361). -/
def ListBranches (lines : List (List Char)) : List Branch :=
  let st := lines.foldl scanBranchLine ⟨[], [], []⟩
  let r := mergePass st.branches st.remoteMap
  r.1 ++ r.2.map Prod.snd

/-! Concrete inputs used by the witnesses and scenario theorems below. -/

/-- Two well-formed porcelain blocks: the primary checkout and one worktree. -/
def demoBlocks : List Block :=
  [⟨gs "/repos/wk", [gs "HEAD aa11", gs "branch refs/heads/main"]⟩,
   ⟨gs "/repos/wk.worktrees/feat", [gs "HEAD bb22", gs "branch refs/heads/feat"]⟩]

/-- A `for-each-ref` output with local branches `a`, `b` and remote-tracking
branches `b`, `c`, plus the `origin/HEAD` pointer that must be discarded. -/
def demoBranchLines : List (List Char) :=
  [gs "a|aa11|2 days ago",
   gs "b|bb22|3 days ago",
   gs "origin/HEAD|cc33|4 days ago",
   gs "origin/b|bb22|3 days ago",
   gs "origin/c|dd44|5 days ago"]

/-- A non-conforming worktree whose move will fail. -/
def demoW1 : Worktree := ⟨gs "/elsewhere/one", gs "aa11", gs "one"⟩

/-- A non-conforming worktree whose move will succeed. -/
def demoW2 : Worktree := ⟨gs "/elsewhere/two", gs "bb22", gs "two"⟩

/-- Per-worktree results of the external move: the first worktree's move exits
non-zero, the second succeeds. -/
def demoRuns : Worktree → CmdResult :=
  fun wt =>
    if wt.path = demoW1.path then ⟨1, [], gs "fatal: working tree is locked"⟩
    else ⟨0, [], []⟩

/-- A registry in which two records carry the branch `feat`; the first of them
is the one a lookup must return. -/
def demoWts : List Worktree :=
  [⟨gs "/repos/wk", gs "aa11", gs "main"⟩,
   ⟨gs "/repos/wk.worktrees/feat", gs "bb22", gs "feat"⟩,
   ⟨gs "/elsewhere/feat", gs "cc33", gs "feat"⟩]

/-! Helper lemmas about the embedded string operations and the parse loop. -/

theorem hasPref_append (p r : List Char) : hasPref p (p ++ r) = true := by
  induction p with
  | nil => rfl
  | cons a ps ih => simp [hasPref, ih]

theorem dropLen_append (p r : List Char) : (p ++ r).drop p.length = r := by
  induction p with
  | nil => rfl
  | cons a ps ih => simp [ih]

theorem dropPref_append (p r : List Char) : dropPref p (p ++ r) = r := by
  simp [dropPref, hasPref_append, dropLen_append]

/-- A `"worktree "` line flushes the accumulated record exactly as the final
flush would, and starts a fresh record holding the remainder of the line. -/
theorem step_wt (st : List Worktree × Worktree) (rest : List Char) :
    step st (wtKey ++ rest) = (flushState st, ⟨rest, [], []⟩) := by
  simp [step, flushState, hasPref_append, dropPref_append]

/-- A line without the `"worktree "` marker never flushes and never changes the
accumulated path. -/
theorem step_other (st : List Worktree × Worktree) (line : List Char)
    (h : hasPref wtKey line = false) :
    (step st line).1 = st.1 ∧ (step st line).2.path = st.2.path := by
  unfold step
  rw [h]
  simp only [Bool.false_eq_true, if_false]
  split_ifs <;> exact ⟨rfl, rfl⟩

/-- Body lines of a block leave the record list and the accumulated path
untouched. -/
theorem foldl_body (ls : List (List Char)) (h : ∀ l ∈ ls, hasPref wtKey l = false) :
    ∀ st : List Worktree × Worktree,
      (ls.foldl step st).1 = st.1 ∧ (ls.foldl step st).2.path = st.2.path := by
  induction ls with
  | nil => intro st; exact ⟨rfl, rfl⟩
  | cons l ls ih =>
    intro st
    have h1 := step_other st l (h l (by simp))
    have h2 := ih (fun x hx => h x (by simp [hx])) (step st l)
    rw [List.foldl_cons]
    exact ⟨h2.1.trans h1.1, h2.2.trans h1.2⟩

/-- Processing a sequence of well-formed blocks appends exactly one record per
block, carrying that block's path, after whatever the pending state flushes
to. -/
theorem blocks_fold : ∀ bs : List Block, (∀ b ∈ bs, WellFormedBlock b) →
    ∀ st : List Worktree × Worktree,
      (flushState ((renderBlocks bs).foldl step st)).map Worktree.path
        = (flushState st).map Worktree.path ++ bs.map Block.path := by
  intro bs
  induction bs with
  | nil => intro _ st; simp [renderBlocks]
  | cons b bs ih =>
    intro hwf st
    have hb := hwf b (by simp)
    have hrender : renderBlocks (b :: bs) = (wtKey ++ b.path) :: (b.body ++ renderBlocks bs) := by
      simp [renderBlocks, renderBlock]
    rw [hrender, List.foldl_cons, step_wt, List.foldl_append]
    have hbody := foldl_body b.body hb.2 (flushState st, ⟨b.path, [], []⟩)
    set st₁ := b.body.foldl step (flushState st, ⟨b.path, [], []⟩) with hst₁
    have hrec := ih (fun x hx => hwf x (by simp [hx])) st₁
    rw [hrec]
    have hp : st₁.2.path = b.path := hbody.2
    have hone : flushState st₁ = st₁.1 ++ [st₁.2] := by
      unfold flushState
      rw [hp, if_neg hb.1]
    have hflush : (flushState st₁).map Worktree.path
        = (flushState st).map Worktree.path ++ [b.path] := by
      rw [hone, hbody.1]
      simp [hp]
    rw [hflush, List.append_assoc]
    rfl

/-- The accumulated path after scanning any line sequence is the payload of the
last `"worktree "`-marked line, or the initial path when no such line
occurred. -/
theorem curPath_gen (st : List Worktree × Worktree) (lines : List (List Char)) :
    ((lines.foldl step st).2).path
      = match (lines.filter (fun l => hasPref wtKey l)).getLast? with
        | none => st.2.path
        | some l => dropPref wtKey l := by
  induction lines using List.reverseRecOn with
  | nil => simp
  | append_singleton ls l ih =>
    rw [List.foldl_append, List.foldl_cons, List.foldl_nil, List.filter_append]
    cases hb : hasPref wtKey l with
    | true =>
      have hstep : ((step (ls.foldl step st) l).2).path = dropPref wtKey l := by
        simp [step, hb]
      rw [hstep]
      simp [hb, List.getLast?_concat]
    | false =>
      have hstep := step_other (ls.foldl step st) l hb
      rw [hstep.2, ih]
      simp [hb]

/-- C1: for every porcelain input consisting of N well-formed worktree blocks,
the parse loop of `listWorktrees` returns exactly N records whose paths are the
block paths in input order — in particular the primary (first) block's record
comes first. -/
theorem claim_C1 (bs : List Block) (hwf : ∀ b ∈ bs, WellFormedBlock b) :
    (parseWorktreeListLines (renderBlocks bs)).map Worktree.path = bs.map Block.path := by
  have h := blocks_fold bs hwf initState
  simpa [parseWorktreeListLines, flushState, initState] using h

/-- C1 witness: two concrete well-formed blocks parse to exactly their two
paths in order. -/
theorem claim_C1_witness :
    (parseWorktreeListLines (renderBlocks demoBlocks)).map Worktree.path
      = demoBlocks.map Block.path :=
  claim_C1 demoBlocks (by decide)

/-- C7 counterexample: the input `["worktree ", "worktree /b"]` contains two
`"worktree "`-marked lines, yet the parse loop returns a single record — the
second `worktree` line appends no record for the block it terminates, because
the accumulated path is empty at a point that is not the start of the
stream. -/
theorem claim_C7_counterexample :
    parseWorktreeListLines [gs "worktree ", gs "worktree /b"] = [⟨gs "/b", [], []⟩]
    ∧ ([gs "worktree ", gs "worktree /b"].countP (fun l => hasPref wtKey l)) = 2 := by
  constructor
  · rfl
  · rfl

/-- C7 amended: every `"worktree "` line flushes the accumulated record exactly
when the accumulated path is non-empty, and the accumulated path is empty
precisely at the start of the stream or right after a `"worktree "` line whose
payload is empty — so every `worktree` line whose preceding block has a
non-empty path appends exactly one record. -/
theorem claim_C7_amended :
    (∀ (st : List Worktree × Worktree) (line : List Char), hasPref wtKey line = true →
        step st line = (if st.2.path = [] then st.1 else st.1 ++ [st.2],
                        ⟨dropPref wtKey line, [], []⟩))
    ∧ (∀ lines : List (List Char),
        ((lines.foldl step initState).2).path
          = match (lines.filter (fun l => hasPref wtKey l)).getLast? with
            | none => []
            | some l => dropPref wtKey l) := by
  constructor
  · intro st line h
    simp [step, h]
  · intro lines
    exact curPath_gen initState lines

/-- C7 amended witness: a `worktree` line arriving with a non-empty accumulated
path flushes that record and starts the new one. -/
theorem claim_C7_amended_witness :
    step ([], ⟨gs "/a", [], []⟩) (gs "worktree /b")
      = ([⟨gs "/a", [], []⟩], ⟨gs "/b", [], []⟩) := by
  have h := claim_C7_amended.1 ([], ⟨gs "/a", [], []⟩) (gs "worktree /b") (by decide)
  rw [h]
  rfl

/-- Splitting on a separator that never occurs returns the whole input as the
single segment. -/
theorem splitOnChar_no_sep (c : Char) : ∀ l : List Char, (∀ x ∈ l, ¬(x = c)) →
    splitOnChar c l = [l] := by
  intro l
  induction l with
  | nil => intro _; rfl
  | cons x xs ih =>
    intro h
    have hx : ¬ (x = c) := h x (by simp)
    have hr := ih (fun y hy => h y (by simp [hy]))
    simp [splitOnChar, hr, hx]

/-- The scanner reports no error when every segment stays below the token-size
cap. -/
theorem scanSegs_noErr : ∀ segs : List (List Char),
    (∀ s ∈ segs, s.length < maxScanTokenSize) → (scanSegs segs).2 = false := by
  intro segs
  induction segs with
  | nil => intro _; rfl
  | cons seg rest ih =>
    intro h
    have h1 : seg.length < maxScanTokenSize := h seg (by simp)
    cases rest with
    | nil =>
      by_cases hseg : seg = []
      · simp [scanSegs, hseg]
      · simp [scanSegs, hseg, Nat.not_le.mpr h1]
    | cons seg2 t =>
      have hr := ih (fun x hx => h x (by simp [hx]))
      simp [scanSegs, Nat.not_le.mpr h1, hr]

/-- C8 counterexample: a byte stream made of a single line of
`maxScanTokenSize` (64 KiB) identical bytes makes the default `bufio.Scanner`
stop with `bufio.ErrTooLong`, which `parseWorktreeList` returns — so it does
not hold that the parse never returns an error for any input byte stream. -/
theorem claim_C8_counterexample :
    (parseWorktreeList (List.replicate 65536 'a')).2
      = some (gs "bufio.Scanner: token too long") := by
  have hsplit : splitOnChar '\n' (List.replicate 65536 'a')
      = [List.replicate 65536 'a'] := by
    apply splitOnChar_no_sep
    intro x hx
    rw [List.eq_of_mem_replicate hx]
    decide
  have hlen : (List.replicate 65536 'a').length = 65536 := by
    rw [List.length_replicate]
  have hne : (List.replicate 65536 'a') ≠ [] := by
    intro h
    rw [h] at hlen
    exact absurd hlen (by decide)
  have hge : (List.replicate 65536 'a').length ≥ maxScanTokenSize := by
    rw [hlen]
    exact Nat.le_refl 65536
  have hscan : scanSegs [List.replicate 65536 'a'] = ([], true) := by
    simp only [scanSegs]
    rw [if_neg hne, if_pos hge]
  unfold parseWorktreeList
  rw [hsplit, hscan]
  rfl

/-- C8 amended: `parseWorktreeList` returns a nil error for every input byte
stream whose newline-separated segments all stay below the scanner's 64 KiB
token cap — which every porcelain stream does — and a block truncated before
its `HEAD` or `branch` lines yields a record whose unset fields are empty
strings rather than a parse error; only a line of 64 KiB or more makes it
return the scanner's `bufio.ErrTooLong`. -/
theorem claim_C8_amended :
    (∀ data : List Char,
        (∀ seg ∈ splitOnChar '\n' data, seg.length < maxScanTokenSize) →
        (parseWorktreeList data).2 = none)
    ∧ parseWorktreeList (gs "worktree /a\nHEAD abc") = ([⟨gs "/a", gs "abc", []⟩], none)
    ∧ parseWorktreeList (gs "worktree /a") = ([⟨gs "/a", [], []⟩], none) := by
  refine ⟨?_, rfl, rfl⟩
  intro data h
  unfold parseWorktreeList
  simp [scanSegs_noErr (splitOnChar '\n' data) h]

/-- C8 amended witness: a concrete two-line porcelain stream, all lines far
below the cap, parses without error. -/
theorem claim_C8_amended_witness :
    (parseWorktreeList (gs "worktree /a\nHEAD abc")).2 = none :=
  claim_C8_amended.1 (gs "worktree /a\nHEAD abc") (by decide)

/-- C2: on local references `a`, `b` and remote-tracking references `b`, `c`
(with `origin/HEAD` discarded), `ListBranches` returns exactly three records —
`a` local-only, `b` merged with both flags set, `c` remote-only — with the
local-or-synced records preceding the remote-only record. -/
theorem claim_C2 :
    ListBranches demoBranchLines =
      [⟨gs "a", false, true, gs "aa11", gs "2 days ago"⟩,
       ⟨gs "b", true, true, gs "bb22", gs "3 days ago"⟩,
       ⟨gs "c", true, false, gs "dd44", gs "5 days ago"⟩]
    ∧ (ListBranches demoBranchLines).length = 3 := by
  constructor
  · rfl
  · rfl

/-- C3: `Add` probes the local reference namespace and then the
remote-tracking namespace; when the branch exists in neither, the external add
is `worktree add -b <branch> <worktreesDir>/<branch> HEAD`; when it exists
locally, the add is `worktree add <worktreesDir>/<branch> <branch>`. -/
theorem claim_C3 (g : GitState) (dir b : List Char) :
    (g.localRefs.contains b = false → g.remoteRefs.contains b = false →
      Add g dir b = [gs "worktree", gs "add", gs "-b", b, joinPath dir b, gs "HEAD"])
    ∧ (g.localRefs.contains b = true →
      Add g dir b = [gs "worktree", gs "add", joinPath dir b, b]) := by
  constructor
  · intro h1 h2
    have h1' : b ∉ g.localRefs := by simpa using h1
    have h2' : b ∉ g.remoteRefs := by simpa using h2
    simp [Add, BranchExists, h1', h2']
  · intro h1
    have h1' : b ∈ g.localRefs := by simpa using h1
    simp [Add, BranchExists, h1']

/-- C3 witness: with local branch `main` and remote branch `develop`, adding
the unknown `feature-x` uses `-b ... HEAD`, adding the local `main` does
not. -/
theorem claim_C3_witness :
    Add ⟨[gs "main"], [gs "develop"]⟩ (gs "/repos/wk.worktrees") (gs "feature-x")
      = [gs "worktree", gs "add", gs "-b", gs "feature-x",
         gs "/repos/wk.worktrees/feature-x", gs "HEAD"]
    ∧ Add ⟨[gs "main"], [gs "develop"]⟩ (gs "/repos/wk.worktrees") (gs "main")
      = [gs "worktree", gs "add", gs "/repos/wk.worktrees/main", gs "main"] := by
  constructor
  · exact ((claim_C3 ⟨[gs "main"], [gs "develop"]⟩ (gs "/repos/wk.worktrees")
      (gs "feature-x")).1 (by decide) (by decide)).trans (by decide)
  · exact ((claim_C3 ⟨[gs "main"], [gs "develop"]⟩ (gs "/repos/wk.worktrees")
      (gs "main")).2 (by decide)).trans (by decide)

/-- C4: `IsInStandardLocation` holds for the primary worktree's own path
whatever it is, and for every other path it holds exactly when the path starts
with `parentDir(primaryPath)/(repoName + ".worktrees")`. -/
theorem claim_C4 (mainPath repoName p : List Char) :
    IsInStandardLocation mainPath repoName mainPath = true
    ∧ (p ≠ mainPath →
        IsInStandardLocation mainPath repoName p
          = hasPref (joinPath (dirPath mainPath) (repoName ++ gs ".worktrees")) p) := by
  constructor
  · simp [IsInStandardLocation]
  · intro h
    simp [IsInStandardLocation, h, GetWorktreesDir]

/-- C4 witness: a concrete non-primary path under the worktrees directory is
classified as conforming. -/
theorem claim_C4_witness :
    IsInStandardLocation (gs "/repos/wk") (gs "wk") (gs "/repos/wk.worktrees/feat") = true := by
  have h := (claim_C4 (gs "/repos/wk") (gs "wk") (gs "/repos/wk.worktrees/feat")).2 (by decide)
  rw [h]
  rfl

/-- C5 counterexample: with exit code 128 and combined output
`fatal: not a git repository`, the error of `listWorktrees` is the wrap
`git worktree list failed: exit status 128` — not the trimmed combined output
the claim states. -/
theorem claim_C5_counterexample :
    listWorktrees ⟨128, [], gs "fatal: not a git repository"⟩
      = Except.error (gs "git worktree list failed: exit status 128")
    ∧ specListErrorMessage ⟨128, [], gs "fatal: not a git repository"⟩
      = gs "fatal: not a git repository"
    ∧ gs "git worktree list failed: exit status 128" ≠ gs "fatal: not a git repository" := by
  refine ⟨rfl, rfl, by decide⟩

/-- C5 amended: when the external list command exits non-zero, `listWorktrees`
fails with the error `git worktree list failed: <process error>` wrapping the
exit error (the command's own output is not used; `List` captures stdout via
`Output`, unlike the mutators which report trimmed combined output). -/
theorem claim_C5_amended (r : CmdResult) (h : r.exitCode ≠ 0) :
    listWorktrees r = Except.error (gs "git worktree list failed: " ++ goExitErr r.exitCode) := by
  simp [listWorktrees, h]

/-- C5 amended witness: a failing run with exit code 1. -/
theorem claim_C5_amended_witness :
    listWorktrees ⟨1, gs "out", gs "err"⟩
      = Except.error (gs "git worktree list failed: " ++ goExitErr 1) :=
  claim_C5_amended ⟨1, gs "out", gs "err"⟩ (by decide)

/-- C6: the relocation loop of the organize flow attempts every record
independently — each record is paired with the outcome of its own move, so a
failing move is reported for that item only and all remaining records are
still attempted; concretely, with the first of two moves failing, the second
is still performed and succeeds. -/
theorem claim_C6 :
    (∀ (dir : List Char) (runs : Worktree → CmdResult) (wts : List Worktree),
        runOrganizeMoves dir runs wts = wts.map (fun wt => (wt, Move dir wt (runs wt))))
    ∧ runOrganizeMoves (gs "/repos/wk.worktrees") demoRuns [demoW1, demoW2]
        = [(demoW1, Except.error (gs "git worktree move failed: fatal: working tree is locked")),
           (demoW2, Except.ok (gs "/repos/wk.worktrees/two"))] := by
  constructor
  · intro dir runs wts
    induction wts with
    | nil => rfl
    | cons wt rest ih => simp [runOrganizeMoves, ih]
  · rfl

/-- C10: the branch lookup fails with the not-found error exactly when no
record of the listed registry carries the requested branch; otherwise it
returns the first matching record in listing order.  The lookup is a pure
query over the freshly listed records and modifies nothing. -/
theorem claim_C10 (wts : List Worktree) (b : List Char) :
    ((FindByBranch wts b = Except.error (notFoundMsg b)) ↔ ∀ wt ∈ wts, wt.branch ≠ b)
    ∧ (∀ wt, wts.find? (fun w => w.branch == b) = some wt →
        FindByBranch wts b = Except.ok wt) := by
  induction wts with
  | nil =>
    constructor
    · simp [FindByBranch]
    · intro wt h
      simp [List.find?] at h
  | cons wt rest ih =>
    constructor
    · by_cases h : wt.branch = b
      · have hnot : ¬ (∀ w ∈ wt :: rest, w.branch ≠ b) :=
          fun hall => hall wt (List.mem_cons_self wt rest) h
        simp [FindByBranch, h, hnot]
      · simp only [FindByBranch, if_neg h]
        rw [ih.1]
        constructor
        · intro hrest w hw
          rcases List.mem_cons.mp hw with rfl | hw'
          · exact h
          · exact hrest w hw'
        · intro hall w hw
          exact hall w (List.mem_cons_of_mem _ hw)
    · intro w hw
      by_cases h : wt.branch = b
      · rw [List.find?_cons_of_pos _ (by simp [h])] at hw
        cases hw
        simp [FindByBranch, h]
      · rw [List.find?_cons_of_neg _ (by simp [h])] at hw
        simp only [FindByBranch, if_neg h]
        exact ih.2 w hw

/-- C10 witness: in a registry with two records on branch `feat`, the lookup
returns the first of them. -/
theorem claim_C10_witness :
    FindByBranch demoWts (gs "feat")
      = Except.ok ⟨gs "/repos/wk.worktrees/feat", gs "bb22", gs "feat"⟩ :=
  (claim_C10 demoWts (gs "feat")).2
    ⟨gs "/repos/wk.worktrees/feat", gs "bb22", gs "feat"⟩ (by decide)

/-- C9: `extractRepoName` maps the SSH form, the scheme form with `.git`, and
the scheme form without `.git` all to the repository segment `repo`. -/
theorem claim_C9 :
    extractRepoName (gs "git@host:owner/repo.git") = gs "repo"
    ∧ extractRepoName (gs "https://host/owner/repo.git") = gs "repo"
    ∧ extractRepoName (gs "https://host/owner/repo") = gs "repo" := by
  refine ⟨rfl, rfl, rfl⟩

end Wk
